import Mathlib

/-!
Shallow embedding of `src/cpu.rs` (OpenNES): a four-opcode 6502-style CPU
interpreter. Machine integers are modelled as `Nat` with explicit `% 2^w`
where the source performs arithmetic that can overflow (u8 increment, u16
program-counter increment); the Rust slice indexing panic and the
`unimplemented!` panic are modelled as `RunError` values; running out of
fuel in the fetch-decode-execute loop is modelled as `none`.
-/

namespace OpenNES

set_option maxRecDepth 8192

/-- Mirrors `struct CPU` from src/cpu.rs: two 8-bit registers, an 8-bit
status byte, and a 16-bit program counter, all modelled as `Nat`. -/
structure CPU where
  register_a : Nat
  register_x : Nat
  status : Nat
  program_counter : Nat
deriving DecidableEq, Repr

/-- Mirrors `enum Flag`. -/
inductive Flag
  | Negative
  | Zero
deriving DecidableEq, Repr

/-- Mirrors `enum Opcode`. -/
inductive Opcode
  | BRK
  | LDA (value : Nat)
  | TAX
  | INX
  | Unknown (value : Nat)
deriving DecidableEq, Repr

/-- Mirrors `enum Register`. -/
inductive Register
  | A
  | X
deriving DecidableEq, Repr

/-- The two ways a run can abort: `unimplemented` models the
`unimplemented!("Opcode: ...")` panic in `interpret` (carrying the raw
byte), `outOfBounds` models the slice-indexing panic in `next_opcode`
(carrying the offending index). -/
inductive RunError
  | unimplemented (value : Nat)
  | outOfBounds (index : Nat)
deriving DecidableEq, Repr

/-- Mirrors `CPU::new`: all fields zeroed. -/
def CPU.new : CPU :=
  { register_a := 0, register_x := 0, status := 0, program_counter := 0 }

/-- Mirrors `CPU::set_flag`: sets or clears one bit of `status` by OR/AND
masks, exactly as the source's four branches do. -/
def CPU.set_flag (c : CPU) (flag : Flag) (b : Bool) : CPU :=
  match flag with
  | .Negative =>
      if b then { c with status := c.status ||| 0b10000000 }
      else { c with status := c.status &&& 0b01111111 }
  | .Zero =>
      if b then { c with status := c.status ||| 0b00000010 }
      else { c with status := c.status &&& 0b11111101 }

/-- Mirrors `CPU::get_flag`: reads one status bit. -/
def CPU.get_flag (c : CPU) (flag : Flag) : Bool :=
  match flag with
  | .Zero => c.status &&& 0b00000010 != 0b00
  | .Negative => c.status &&& 0b10000000 != 0

/-- Mirrors `CPU::set_register`: stores `param` into the named register,
then recomputes the Zero flag (from `== 0`) and the Negative flag (from
bit 7) of the just-written register, in that order. -/
def CPU.set_register (c : CPU) (register : Register) (param : Nat) : CPU :=
  match register with
  | .A =>
      let c1 := { c with register_a := param }
      let c2 :=
        if c1.register_a = 0 then c1.set_flag .Zero true
        else c1.set_flag .Zero false
      if c2.register_a &&& 0b10000000 ≠ 0 then c2.set_flag .Negative true
      else c2.set_flag .Negative false
  | .X =>
      let c1 := { c with register_x := param }
      let c2 :=
        if c1.register_x = 0 then c1.set_flag .Zero true
        else c1.set_flag .Zero false
      if c2.register_x &&& 0b10000000 ≠ 0 then c2.set_flag .Negative true
      else c2.set_flag .Negative false

/-- Mirrors `CPU::inc_register`: both arms read `self.register_a`, add 1
(u8 arithmetic, so modulo 256), and write the result to the named
register through `set_register`. -/
def CPU.inc_register (c : CPU) (register : Register) : CPU :=
  match register with
  | .A => c.set_register .A ((c.register_a + 1) % 256)
  | .X => c.set_register .X ((c.register_a + 1) % 256)

/-- Mirrors `CPU::next_opcode`: fetch the byte at `program_counter` (a
failed fetch is the slice-index panic, reported as `outOfBounds`),
advance the counter (u16 arithmetic, so modulo 65536), and decode; the
0xA9 arm fetches one operand byte the same way. Returns the decoded
opcode (or the fault) together with the updated CPU. -/
def CPU.next_opcode (c : CPU) (program : List Nat) : Except RunError Opcode × CPU :=
  match program[c.program_counter]? with
  | none => (.error (.outOfBounds c.program_counter), c)
  | some opcode =>
      let c1 := { c with program_counter := (c.program_counter + 1) % 65536 }
      if opcode = 0x00 then (.ok .BRK, c1)
      else if opcode = 0xA9 then
        match program[c1.program_counter]? with
        | none => (.error (.outOfBounds c1.program_counter), c1)
        | some value =>
            (.ok (.LDA value),
              { c1 with program_counter := (c1.program_counter + 1) % 65536 })
      else if opcode = 0xAA then (.ok .TAX, c1)
      else if opcode = 0xE8 then (.ok .INX, c1)
      else (.ok (.Unknown opcode), c1)

/-- The body of `CPU::interpret`'s `loop`, indexed by fuel: `none` means
the fuel ran out before the loop finished; `some (c, .ok ())` models a
normal return (BRK); `some (c, .error e)` models a panic with the CPU
state at the moment of the panic. -/
def CPU.interpretLoop (program : List Nat) : Nat → CPU → Option (CPU × Except RunError Unit)
  | 0, _ => none
  | fuel + 1, c =>
      match c.next_opcode program with
      | (.error e, c1) => some (c1, .error e)
      | (.ok op, c1) =>
          match op with
          | .LDA param => CPU.interpretLoop program fuel (c1.set_register .A param)
          | .TAX => CPU.interpretLoop program fuel (c1.set_register .X c1.register_a)
          | .INX => CPU.interpretLoop program fuel (c1.inc_register .X)
          | .BRK => some (c1, .ok ())
          | .Unknown value => some (c1, .error (.unimplemented value))

/-- Mirrors `CPU::interpret`: reset `program_counter` to 0, then run the
fetch-decode-execute loop. Fuel `program.length + 1` is enough for every
program short enough that the 16-bit program counter cannot wrap (proved
below); for longer programs the loop can genuinely diverge and the fuel
runs out. -/
def CPU.interpret (c : CPU) (program : List Nat) : Option (CPU × Except RunError Unit) :=
  CPU.interpretLoop program (program.length + 1) { c with program_counter := 0 }

/-- The Rust `interpret` call on this CPU and program returns (normally or
by panic) after finitely many loop iterations: some amount of fuel makes
the fuel-indexed loop finish. -/
def CPU.terminates (c : CPU) (program : List Nat) : Prop :=
  ∃ fuel, (CPU.interpretLoop program fuel { c with program_counter := 0 }).isSome = true

/-- One caller-visible operation on a CPU, for stating state invariants:
an `interpret` run, a raw register write, or a raw flag write. -/
inductive Op
  | interp (program : List Nat)
  | setReg (r : Register) (v : Nat)
  | setFl (f : Flag) (b : Bool)

/-- Applies one operation to a CPU state. For `interp` the resulting
state is the one the run ends in (at BRK or at a panic); if the fuel
bound is exceeded the run never returns, so the state is left as is. -/
def CPU.applyOp (c : CPU) : Op → CPU
  | .interp p =>
      match c.interpret p with
      | some (c1, _) => c1
      | none => c
  | .setReg r v => c.set_register r v
  | .setFl f b => c.set_flag f b

/-- Applies a sequence of operations in order. -/
def CPU.applyOps (c : CPU) (ops : List Op) : CPU :=
  ops.foldl CPU.applyOp c

/-- Status bytes reachable from a zeroed CPU: only bits 1 and 7 can be
set. -/
def statusOK (s : Nat) : Prop :=
  s = 0 ∨ s = 2 ∨ s = 128 ∨ s = 130

/-- The status byte produced by `set_register` from old status `s` and
written value `v`: the Zero update followed by the Negative update. -/
def flagsStatus (s v : Nat) : Nat :=
  if v &&& 0b10000000 ≠ 0 then (if v = 0 then s ||| 0b00000010 else s &&& 0b11111101) ||| 0b10000000
  else (if v = 0 then s ||| 0b00000010 else s &&& 0b11111101) &&& 0b01111111

theorem CPU.set_flag_register_a (c : CPU) (f : Flag) (b : Bool) :
    (c.set_flag f b).register_a = c.register_a := by
  cases f <;> cases b <;> rfl

theorem CPU.set_flag_register_x (c : CPU) (f : Flag) (b : Bool) :
    (c.set_flag f b).register_x = c.register_x := by
  cases f <;> cases b <;> rfl

theorem CPU.set_flag_program_counter (c : CPU) (f : Flag) (b : Bool) :
    (c.set_flag f b).program_counter = c.program_counter := by
  cases f <;> cases b <;> rfl

theorem CPU.set_register_A_eq (c : CPU) (v : Nat) :
    c.set_register .A v = { c with register_a := v, status := flagsStatus c.status v } := by
  simp only [CPU.set_register, CPU.set_flag, flagsStatus]
  by_cases hv : v = 0 <;> by_cases hn : v &&& 0b10000000 ≠ 0 <;> simp [hv, hn]

theorem CPU.set_register_X_eq (c : CPU) (v : Nat) :
    c.set_register .X v = { c with register_x := v, status := flagsStatus c.status v } := by
  simp only [CPU.set_register, CPU.set_flag, flagsStatus]
  by_cases hv : v = 0 <;> by_cases hn : v &&& 0b10000000 ≠ 0 <;> simp [hv, hn]

theorem flagsStatus_of_zero (s : Nat) (hs : s < 256) :
    ((s ||| 2) &&& 127) &&& 2 ≠ 0
    ∧ ((s ||| 2) &&& 127) &&& 128 = 0
    ∧ ((s ||| 2) &&& 127) &&& 125 = s &&& 125 := by
  revert s hs
  decide

theorem flagsStatus_of_neg (s : Nat) (hs : s < 256) :
    ((s &&& 253) ||| 128) &&& 2 = 0
    ∧ ((s &&& 253) ||| 128) &&& 128 ≠ 0
    ∧ ((s &&& 253) ||| 128) &&& 125 = s &&& 125 := by
  revert s hs
  decide

theorem flagsStatus_of_plain (s : Nat) (hs : s < 256) :
    ((s &&& 253) &&& 127) &&& 2 = 0
    ∧ ((s &&& 253) &&& 127) &&& 128 = 0
    ∧ ((s &&& 253) &&& 127) &&& 125 = s &&& 125 := by
  revert s hs
  decide

/-- The three observable properties of the recomputed status byte: bit 1
records `v = 0`, bit 7 records bit 7 of `v`, and the bits selected by the
mask 0b01111101 are untouched. -/
theorem flagsStatus_spec (s v : Nat) (hs : s < 256) :
    (flagsStatus s v &&& 2 ≠ 0 ↔ v = 0)
    ∧ (flagsStatus s v &&& 128 ≠ 0 ↔ v &&& 128 ≠ 0)
    ∧ flagsStatus s v &&& 125 = s &&& 125 := by
  by_cases hn : v &&& 0b10000000 ≠ 0
  · have hv : ¬v = 0 := by
      intro h
      subst h
      simp at hn
    rw [flagsStatus, if_pos hn, if_neg hv]
    have h := flagsStatus_of_neg s hs
    exact ⟨iff_of_false (by simp [h.1]) hv, iff_of_true h.2.1 hn, h.2.2⟩
  · by_cases hv : v = 0
    · rw [flagsStatus, if_neg hn, if_pos hv]
      have h := flagsStatus_of_zero s hs
      exact ⟨iff_of_true h.1 hv, iff_of_false (by simp [h.2.1]) hn, h.2.2⟩
    · rw [flagsStatus, if_neg hn, if_neg hv]
      have h := flagsStatus_of_plain s hs
      exact ⟨iff_of_false (by simp [h.1]) hv, iff_of_false (by simp [h.2.1]) hn, h.2.2⟩

theorem flag_bits_facts (s : Nat) (hs : s < 256) :
    ((s ||| 2) &&& 2 ≠ 0)
    ∧ ((s &&& 253) &&& 2 = 0)
    ∧ ((s ||| 128) &&& 128 ≠ 0)
    ∧ ((s &&& 127) &&& 128 = 0)
    ∧ ((s ||| 2) &&& 128 = s &&& 128)
    ∧ ((s &&& 253) &&& 128 = s &&& 128)
    ∧ ((s ||| 128) &&& 2 = s &&& 2)
    ∧ ((s &&& 127) &&& 2 = s &&& 2) := by
  revert s hs
  decide

/-- Claim C1: for every byte value v, `set_register` stores v into the
named register, sets the Zero flag to true iff v = 0 and the Negative
flag to true iff v &&& 0x80 ≠ 0, and leaves the other data register, the
program counter, and every status bit outside bits 1 and 7 unchanged;
`set_register` is a total function, so the operation cannot fail. -/
theorem write_register_spec (c : CPU) (v : Nat) (hv : v < 256) (hs : c.status < 256) :
    ((c.set_register .A v).register_a = v
      ∧ ((c.set_register .A v).get_flag .Zero = true ↔ v = 0)
      ∧ ((c.set_register .A v).get_flag .Negative = true ↔ v &&& 0x80 ≠ 0)
      ∧ (c.set_register .A v).register_x = c.register_x
      ∧ (c.set_register .A v).program_counter = c.program_counter
      ∧ (c.set_register .A v).status &&& 0b01111101 = c.status &&& 0b01111101)
    ∧ ((c.set_register .X v).register_x = v
      ∧ ((c.set_register .X v).get_flag .Zero = true ↔ v = 0)
      ∧ ((c.set_register .X v).get_flag .Negative = true ↔ v &&& 0x80 ≠ 0)
      ∧ (c.set_register .X v).register_a = c.register_a
      ∧ (c.set_register .X v).program_counter = c.program_counter
      ∧ (c.set_register .X v).status &&& 0b01111101 = c.status &&& 0b01111101) := by
  have h := flagsStatus_spec c.status v hs
  rw [CPU.set_register_A_eq, CPU.set_register_X_eq]
  refine ⟨⟨rfl, ?_, ?_, rfl, rfl, h.2.2⟩, ⟨rfl, ?_, ?_, rfl, rfl, h.2.2⟩⟩ <;>
    simp only [CPU.get_flag, bne_iff_ne, ne_eq]
  · exact h.1
  · simpa using h.2.1
  · exact h.1
  · simpa using h.2.1

theorem write_register_spec_witness :
    (5 : Nat) < 256 ∧ CPU.new.status < 256 ∧ (CPU.new.set_register .A 5).register_a = 5 :=
  ⟨by decide, by decide, (write_register_spec CPU.new 5 (by decide) (by decide)).1.1⟩

/-- Claim C10: reading a flag right after writing it returns the written
boolean, and writing one flag does not change what `get_flag` returns
for the other flag. -/
theorem flag_roundtrip (c : CPU) (f f' : Flag) (b : Bool) (hs : c.status < 256) :
    (c.set_flag f b).get_flag f = b
    ∧ (f' ≠ f → (c.set_flag f b).get_flag f' = c.get_flag f') := by
  obtain ⟨h1, h2, h3, h4, h5, h6, h7, h8⟩ := flag_bits_facts c.status hs
  cases f <;> cases b <;> cases f' <;>
    refine ⟨?_, fun hne => ?_⟩ <;>
    simp_all [CPU.set_flag, CPU.get_flag, bne_iff_ne, bne_eq_false_iff_eq]

theorem flag_roundtrip_witness :
    CPU.new.status < 256 ∧ (CPU.new.set_flag .Zero true).get_flag .Zero = true :=
  ⟨by decide, (flag_roundtrip CPU.new .Zero .Negative true (by decide)).1⟩

/-- Claim C2: when the accumulator holds a < 0xFF, `inc_register` on the
X register stores a + 1 into `register_x`, reading the accumulator (so
the prior contents of `register_x` is irrelevant to the result), and the
store goes through `set_register`, which recomputes the Zero and
Negative flags from a + 1. -/
theorem increment_reads_accumulator (c : CPU) (h : c.register_a < 0xFF)
    (hs : c.status < 256) :
    c.inc_register .X = c.set_register .X (c.register_a + 1)
    ∧ (c.inc_register .X).register_x = c.register_a + 1
    ∧ (∀ x, (({ c with register_x := x }).inc_register .X).register_x = c.register_a + 1)
    ∧ ((c.inc_register .X).get_flag .Zero = true ↔ c.register_a + 1 = 0)
    ∧ ((c.inc_register .X).get_flag .Negative = true ↔ (c.register_a + 1) &&& 0x80 ≠ 0) := by
  have hmod : (c.register_a + 1) % 256 = c.register_a + 1 := Nat.mod_eq_of_lt (by omega)
  have hspec := flagsStatus_spec c.status (c.register_a + 1) hs
  refine ⟨?_, ?_, ?_, ?_, ?_⟩
  · simp [CPU.inc_register, hmod]
  · simp [CPU.inc_register, hmod, CPU.set_register_X_eq]
  · intro x
    simp [CPU.inc_register, hmod, CPU.set_register_X_eq]
  · simp only [CPU.inc_register, hmod, CPU.set_register_X_eq, CPU.get_flag, bne_iff_ne, ne_eq]
    exact hspec.1
  · simp only [CPU.inc_register, hmod, CPU.set_register_X_eq, CPU.get_flag, bne_iff_ne, ne_eq]
    simpa using hspec.2.1

theorem increment_reads_accumulator_witness :
    CPU.new.register_a < 0xFF ∧ CPU.new.status < 256
    ∧ (CPU.new.inc_register .X).register_x = CPU.new.register_a + 1 :=
  ⟨by decide, by decide,
    (increment_reads_accumulator CPU.new (by decide) (by decide)).2.1⟩

/-- Claim C3: `inc_register` adds 1 with 8-bit wraparound to the value it
reads (the accumulator): the value stored in the target register is
(a + 1) % 256, in particular 0x00 when a = 0xFF, and no status bit
outside the Zero/Negative bits is set in the process. -/
theorem increment_wraps (c : CPU) (hs : c.status < 256) :
    (c.inc_register .X).register_x = (c.register_a + 1) % 256
    ∧ (c.inc_register .A).register_a = (c.register_a + 1) % 256
    ∧ (c.register_a = 0xFF → (c.inc_register .X).register_x = 0)
    ∧ (c.inc_register .X).status &&& 0b01111101 = c.status &&& 0b01111101 := by
  have hspec := flagsStatus_spec c.status ((c.register_a + 1) % 256) hs
  refine ⟨?_, ?_, ?_, ?_⟩
  · simp [CPU.inc_register, CPU.set_register_X_eq]
  · simp [CPU.inc_register, CPU.set_register_A_eq]
  · intro ha
    simp [CPU.inc_register, CPU.set_register_X_eq, ha]
  · simp only [CPU.inc_register, CPU.set_register_X_eq]
    exact hspec.2.2

/-- Claim C4: a program whose first byte is none of 0x00, 0xA9, 0xAA,
0xE8 makes `interpret` stop at once with the Unimplemented-Opcode fault
carrying that byte; the returned state differs from the initial one only
in the program counter, so the accumulator, index register and status
are untouched. -/
theorem unknown_first_opcode (c : CPU) (b : Nat) (p : List Nat)
    (hb0 : b ≠ 0x00) (hb1 : b ≠ 0xA9) (hb2 : b ≠ 0xAA) (hb3 : b ≠ 0xE8) :
    c.interpret (b :: p)
      = some ({ c with program_counter := 1 }, .error (.unimplemented b)) := by
  simp [CPU.interpret, CPU.interpretLoop, CPU.next_opcode, hb0, hb1, hb2, hb3]

theorem unknown_first_opcode_witness :
    (0x42 : Nat) ≠ 0x00 ∧ (0x42 : Nat) ≠ 0xA9 ∧ (0x42 : Nat) ≠ 0xAA ∧ (0x42 : Nat) ≠ 0xE8
    ∧ CPU.new.interpret [0x42]
        = some ({ CPU.new with program_counter := 1 }, .error (.unimplemented 0x42)) :=
  ⟨by decide, by decide, by decide, by decide,
    unknown_first_opcode CPU.new 0x42 [] (by decide) (by decide) (by decide) (by decide)⟩

/-- Claim C5: no bounds check precedes a fetch: on the empty program the
very first fetch indexes position 0 of a length-0 sequence, and on
[0xA9] the operand fetch indexes position 1 of a length-1 sequence; in
both cases the out-of-bounds branch of the indexing operation (modelled
as the `outOfBounds` fault) is reached. -/
theorem oob_fetch_reachable :
    CPU.new.interpret [] = some (CPU.new, .error (.outOfBounds 0))
    ∧ CPU.new.interpret [0xA9]
        = some ({ CPU.new with program_counter := 1 }, .error (.outOfBounds 1)) :=
  ⟨rfl, rfl⟩

/-- Claim C7: the program [0xE8, 0xE8, 0x00] on a CPU with index X preset
to 0xFF and everything else zero terminates normally (at the 0x00 byte)
with register_x = 1: both increments read the accumulator (0), so each
stores 1 into X. -/
theorem inx_overflow_run :
    ({ register_a := 0, register_x := 0xFF, status := 0, program_counter := 0 } : CPU).interpret
        [0xE8, 0xE8, 0x00]
      = some ({ register_a := 0, register_x := 1, status := 0, program_counter := 3 }, .ok ()) :=
  rfl

/-- Claim C9: `interpret` is deterministic with no hidden state: its
result depends only on the program and the three data fields of the
initial CPU (the initial program counter is reset to 0 before the run),
so two runs from freshly zeroed CPUs — or from any two CPUs agreeing on
accumulator, index X and status — produce identical results. -/
theorem interpret_no_hidden_state (p : List Nat) (c1 c2 : CPU)
    (ha : c1.register_a = c2.register_a) (hx : c1.register_x = c2.register_x)
    (hst : c1.status = c2.status) :
    c1.interpret p = c2.interpret p := by
  have h : ({ c1 with program_counter := 0 } : CPU) = { c2 with program_counter := 0 } := by
    cases c1
    cases c2
    simp_all
  unfold CPU.interpret
  rw [h]

theorem interpret_no_hidden_state_witness :
    ({ register_a := 0, register_x := 0, status := 0, program_counter := 5 } : CPU).interpret
        [0x00]
      = CPU.new.interpret [0x00] :=
  interpret_no_hidden_state [0x00] _ _ rfl rfl rfl

theorem increment_wraps_witness :
    ({ CPU.new with register_a := 0xFF } : CPU).status < 256
    ∧ (({ CPU.new with register_a := 0xFF } : CPU).inc_register .X).register_x
        = (({ CPU.new with register_a := 0xFF } : CPU).register_a + 1) % 256 :=
  ⟨by decide, (increment_wraps { CPU.new with register_a := 0xFF } (by decide)).1⟩

theorem flagsStatus_statusOK {s : Nat} (h : statusOK s) (v : Nat) :
    statusOK (flagsStatus s v) := by
  rcases h with h | h | h | h <;> subst h <;>
    by_cases hn : v &&& 0b10000000 ≠ 0 <;> by_cases hv : v = 0 <;>
      simp [flagsStatus, hn, hv, statusOK] <;> decide

theorem CPU.set_flag_statusOK (c : CPU) (f : Flag) (b : Bool) (h : statusOK c.status) :
    statusOK (c.set_flag f b).status := by
  rcases h with h | h | h | h <;> cases f <;> cases b <;>
    simp [CPU.set_flag, statusOK, h] <;> decide

theorem CPU.set_register_statusOK (c : CPU) (r : Register) (v : Nat) (h : statusOK c.status) :
    statusOK (c.set_register r v).status := by
  cases r
  · rw [CPU.set_register_A_eq]
    exact flagsStatus_statusOK h v
  · rw [CPU.set_register_X_eq]
    exact flagsStatus_statusOK h v

theorem CPU.inc_register_statusOK (c : CPU) (r : Register) (h : statusOK c.status) :
    statusOK (c.inc_register r).status := by
  cases r <;> exact c.set_register_statusOK _ _ h

theorem CPU.next_opcode_data (c : CPU) (p : List Nat) :
    (c.next_opcode p).2.register_a = c.register_a
    ∧ (c.next_opcode p).2.register_x = c.register_x
    ∧ (c.next_opcode p).2.status = c.status := by
  unfold CPU.next_opcode
  dsimp only
  repeat' split
  all_goals exact ⟨rfl, rfl, rfl⟩

theorem CPU.interpretLoop_statusOK (p : List Nat) :
    ∀ fuel (c : CPU), statusOK c.status →
      ∀ c1 e, CPU.interpretLoop p fuel c = some (c1, e) → statusOK c1.status := by
  intro fuel
  induction fuel with
  | zero =>
      intro c _ c1 e h
      simp [CPU.interpretLoop] at h
  | succ n ih =>
      intro c hc c1 e h
      rw [CPU.interpretLoop] at h
      rcases hop : c.next_opcode p with ⟨r, c2⟩
      have hc2 : statusOK c2.status := by
        have := (c.next_opcode_data p).2.2
        rw [hop] at this
        rwa [this]
      rw [hop] at h
      rcases r with e' | op
      · rcases h with ⟨rfl, rfl⟩
        exact hc2
      · cases op with
        | LDA v => exact ih _ (c2.set_register_statusOK .A v hc2) c1 e h
        | TAX => exact ih _ (c2.set_register_statusOK .X _ hc2) c1 e h
        | INX => exact ih _ (c2.inc_register_statusOK .X hc2) c1 e h
        | BRK =>
            rcases h with ⟨rfl, rfl⟩
            exact hc2
        | Unknown v =>
            rcases h with ⟨rfl, rfl⟩
            exact hc2

theorem CPU.applyOp_statusOK (c : CPU) (op : Op) (h : statusOK c.status) :
    statusOK (c.applyOp op).status := by
  cases op with
  | interp p =>
      simp only [CPU.applyOp]
      split
      · rename_i c1 e heq
        unfold CPU.interpret at heq
        exact CPU.interpretLoop_statusOK p (p.length + 1) { c with program_counter := 0 } h c1 e heq
      · exact h
  | setReg r v => exact c.set_register_statusOK r v h
  | setFl f b => exact c.set_flag_statusOK f b h

/-- Claim C6: starting from a freshly constructed CPU (all fields zero),
after any sequence of interpret runs, register writes and flag writes,
every status bit other than bit 1 (Zero) and bit 7 (Negative) is 0:
status &&& 0b01111101 = 0 is an invariant of all the operations. -/
theorem status_bits_invariant (ops : List Op) :
    (CPU.applyOps CPU.new ops).status &&& 0b01111101 = 0 := by
  have hstep : ∀ (l : List Op) (c : CPU), statusOK c.status → statusOK (CPU.applyOps c l).status := by
    intro l
    induction l with
    | nil => intro c h; exact h
    | cons op t ih => intro c h; exact ih _ (c.applyOp_statusOK op h)
  have hOK := hstep ops CPU.new (Or.inl rfl)
  rcases hOK with h | h | h | h <;> rw [h] <;> decide
theorem CPU.set_register_pc (c : CPU) (r : Register) (v : Nat) :
    (c.set_register r v).program_counter = c.program_counter := by
  cases r
  · rw [CPU.set_register_A_eq]
  · rw [CPU.set_register_X_eq]

theorem CPU.inc_register_pc (c : CPU) (r : Register) :
    (c.inc_register r).program_counter = c.program_counter := by
  cases r <;> exact c.set_register_pc _ _

theorem CPU.set_register_X_a (c : CPU) (v : Nat) :
    (c.set_register .X v).register_a = c.register_a := by
  rw [CPU.set_register_X_eq]

theorem CPU.inc_register_X_a (c : CPU) :
    (c.inc_register .X).register_a = c.register_a :=
  c.set_register_X_a _

theorem interpretLoop_isSome (p : List Nat) (hlen : p.length ≤ 65535) :
    ∀ fuel (c : CPU), p.length - c.program_counter < fuel →
      (CPU.interpretLoop p fuel c).isSome = true := by
  intro fuel
  induction fuel with
  | zero =>
      intro c h
      omega
  | succ n ih =>
      intro c h
      rw [CPU.interpretLoop]
      rcases hfetch : p[c.program_counter]? with _ | b
      · simp [CPU.next_opcode, hfetch]
      · have hpc : c.program_counter < p.length := by
          rcases Nat.lt_or_ge c.program_counter p.length with h' | h'
          · exact h'
          · rw [List.getElem?_eq_none h'] at hfetch
            cases hfetch
        have hm1 : (c.program_counter + 1) % 65536 = c.program_counter + 1 :=
          Nat.mod_eq_of_lt (by omega)
        by_cases hb0 : b = 0x00
        · simp [CPU.next_opcode, hfetch, hb0]
        · by_cases hb1 : b = 0xA9
          · rcases hfetch2 : p[(c.program_counter + 1) % 65536]? with _ | v
            · simp [CPU.next_opcode, hfetch, hb0, hb1, hfetch2]
            · rw [hm1] at hfetch2
              have hpc2 : c.program_counter + 1 < p.length := by
                rcases Nat.lt_or_ge (c.program_counter + 1) p.length with h' | h'
                · exact h'
                · rw [List.getElem?_eq_none h'] at hfetch2
                  cases hfetch2
              have hm2 : (c.program_counter + 1 + 1) % 65536 = c.program_counter + 2 :=
                Nat.mod_eq_of_lt (by omega)
              simp only [CPU.next_opcode, hfetch, hb0, hb1, hfetch2, hm1, hm2, if_neg, if_pos,
                ite_true, ite_false]
              simp only [show ¬((0xA9 : Nat) = 0) from by decide, ite_false, if_neg,
                not_false_eq_true]
              apply ih
              rw [CPU.set_register_pc]
              show p.length - (c.program_counter + 2) < n
              omega
          · by_cases hb2 : b = 0xAA
            · simp only [CPU.next_opcode, hfetch, hb0, hb1, hb2, hm1, if_neg, if_pos,
                ite_true, ite_false]
              apply ih
              rw [CPU.set_register_pc]
              simp [hm1]
              omega
            · by_cases hb3 : b = 0xE8
              · simp only [CPU.next_opcode, hfetch, hb0, hb1, hb2, hb3, hm1, if_neg, if_pos,
                  ite_true, ite_false]
                apply ih
                rw [CPU.inc_register_pc]
                simp [hm1]
                omega
              · simp [CPU.next_opcode, hfetch, hb0, hb1, hb2, hb3]
/-- Claim C8 (amended): every `interpret` run on a program of length at
most 65535 terminates — fuel `program.length + 1` always suffices for the
fetch-decode-execute loop, because below that length the 16-bit program
counter cannot wrap and strictly advances through the finite byte
sequence until a Halt, an unimplemented opcode, or an out-of-bounds
fetch. (For longer programs the counter wraps and the loop can run
forever; see `interpret_diverges`.) -/
theorem interpret_terminates (c : CPU) (p : List Nat) (hlen : p.length ≤ 65535) :
    c.terminates p ∧ ∃ r, c.interpret p = some r := by
  have h := interpretLoop_isSome p hlen (p.length + 1) { c with program_counter := 0 }
    (by show p.length - 0 < p.length + 1; omega)
  constructor
  · exact ⟨p.length + 1, h⟩
  · rcases hr : c.interpret p with _ | r
    · unfold CPU.interpret at hr
      rw [hr] at h
      cases h
    · exact ⟨r, rfl⟩

theorem interpret_terminates_witness :
    ([0x00] : List Nat).length ≤ 65535 ∧ ∃ r, CPU.new.interpret [0x00] = some r :=
  ⟨by decide, (interpret_terminates CPU.new [0x00] (by decide)).2⟩

theorem replicate_getElem_some (n i : Nat) (a : Nat) (h : i < n) :
    (List.replicate n a)[i]? = some a := by
  simp [List.getElem?_eq_getElem, h]


theorem interpretLoop_allE8_none (p : List Nat)
    (hall : ∀ i, i < 65536 → p[i]? = some 0xE8) :
    ∀ fuel (c : CPU), c.register_a = 0 → c.program_counter < 65536 →
      CPU.interpretLoop p fuel c = none := by
  intro fuel
  induction fuel with
  | zero =>
      intro c _ _
      rfl
  | succ n ih =>
      intro c ha hpc
      rw [CPU.interpretLoop]
      have hfetch := hall c.program_counter hpc
      simp only [CPU.next_opcode, hfetch]
      simp only [show ¬((0xE8 : Nat) = 0x00) from by decide,
        show ¬((0xE8 : Nat) = 0xA9) from by decide,
        show ¬((0xE8 : Nat) = 0xAA) from by decide,
        ite_false, if_neg, not_false_eq_true, ite_true, if_pos]
      apply ih
      · rw [CPU.inc_register_X_a]
        exact ha
      · rw [CPU.inc_register_pc]
        exact Nat.mod_lt _ (by omega)

/-- Claim C8 (counterexample to the claim as stated): on the 65536-byte
program consisting entirely of 0xE8, the run never terminates — no
amount of fuel completes the loop, because every fetch is in bounds
(`pc` is kept below 65536 by the u16 wraparound) and every instruction
is INX, so the program counter wraps from 0xFFFF back to 0 and the loop
revisits the same states forever. -/
theorem interpret_diverges :
    ¬ CPU.new.terminates (List.replicate 65536 0xE8) := by
  rintro ⟨fuel, hsome⟩
  have hall : ∀ i, i < 65536 → (List.replicate 65536 (0xE8 : Nat))[i]? = some 0xE8 := by
    intro i hi
    exact replicate_getElem_some _ _ _ hi
  rw [interpretLoop_allE8_none _ hall fuel { CPU.new with program_counter := 0 } rfl
    (by decide)] at hsome
  cases hsome
end OpenNES
